import Mathlib

/-!
Verification of the restartable character-encoding conversion engine
(`src/src/lib.rs`): a shallow embedding of the UTF-8 decoder (`mbtoc32`),
the scalar-to-UTF-8 encoder (`c32tomb`) and the seven public operations
(`rs_c8rtomb`, `rs_c16rtomb`, `rs_c32rtomb`, `rs_mbrtoc8`, `rs_mbrtoc16`,
`rs_mbrtoc32`, `rs_mbsinit`), together with theorems settling the spec's
claims about them.

Machine integers are modelled as `Nat` with explicit `% 2 ^ w` at the
places where the Rust code truncates (`as c_char` casts, `u32` shifts).
Byte buffers are `List Nat`; the in/out pointers of the C-style API become
`Option Nat` results (`none` = pointer was null / nothing written), and a
null state pointer is out of scope (the claims are about explicit states).
-/

set_option maxRecDepth 40000

namespace Mbstowcs

/-- Conversion state, mirroring `struct MBState` in `src/src/lib.rs`
(field `partial` is named `part` here; `u8_buffer` is kept as a list,
always of length 4 in reachable states). -/
structure MBState where
  ch : Nat
  bytesleft : Nat
  part : Nat
  lowerbound : Nat
  u8_buffer : List Nat
  u8_position : Nat
  u16_buffer : List Nat
  u16_surrogate : Nat
deriving DecidableEq, Repr

/-- The zero-initialized state produced by `MBState::new()`; `MBState::reset()`
also assigns exactly these values. -/
def MBState.initial : MBState :=
  { ch := 0, bytesleft := 0, part := 0, lowerbound := 0,
    u8_buffer := [0, 0, 0, 0], u8_position := 0,
    u16_buffer := [0, 0], u16_surrogate := 0 }

/-- `MBState::is_initial` from the source: checks `ch`, `bytesleft` and the
surrogate field only. -/
def MBState.is_initial (ps : MBState) : Bool :=
  ps.ch == 0 && ps.bytesleft == 0 &&
    (ps.u16_surrogate < 0xd800 || ps.u16_surrogate > 0xdfff)

/-- `rs_mbsinit`: null state (modelled as `none`) reports true (1). -/
def rs_mbsinit (ps : Option MBState) : Int :=
  match ps with
  | none => 1
  | some ps => if ps.is_initial then 1 else 0

/-- Outcome of the continuation-byte loop of `mbtoc32` (`while n > 0 { ... }`):
either a scalar was completed after consuming `consumed` bytes inside the
loop, or an illegal byte / failed final validation was hit (the Rust code
returns `-1` leaving the state untouched), or the input ran out and the
decoding-progress fields are written back to the state. -/
inductive LoopRes where
  | complete (sc consumed : Nat)
  | illegal
  | incomplete (bl p lb : Nat)
deriving DecidableEq, Repr

/-- The continuation-byte loop of `mbtoc32` over the remaining input bytes,
carrying the local variables `bytesleft`, `partial`, `lowerbound`.
`partial <<= 6` acts on a `u32`, hence the `% 2 ^ 32`. The loop is entered
with `bytesleft ≥ 1` only. -/
def mbtoc32Loop : List Nat → Nat → Nat → Nat → LoopRes
  | [], bl, p, lb => .incomplete bl p lb
  | b :: rest, bl, p, lb =>
    if b &&& 0xc0 ≠ 0x80 then .illegal
    else if bl - 1 = 0 then
      if ((p <<< 6) % 4294967296) ||| (b &&& 0x3f) < lb ∨
          (0xd800 ≤ ((p <<< 6) % 4294967296) ||| (b &&& 0x3f) ∧
            ((p <<< 6) % 4294967296) ||| (b &&& 0x3f) ≤ 0xdfff) ∨
          0x10ffff < ((p <<< 6) % 4294967296) ||| (b &&& 0x3f) then .illegal
      else .complete (((p <<< 6) % 4294967296) ||| (b &&& 0x3f)) 1
    else
      match mbtoc32Loop rest (bl - 1) (((p <<< 6) % 4294967296) ||| (b &&& 0x3f)) lb with
      | .complete sc c => .complete sc (c + 1)
      | .illegal => .illegal
      | .incomplete bl2 q lb2 => .incomplete bl2 q lb2

/-- Turns a loop outcome into the `(return value, written scalar, state)`
triple of `mbtoc32`; `base` is the number of bytes already consumed before
the loop (1 when a lead byte was consumed in this call, 0 otherwise).
On completion `ps.reset()` ran, on `-1` the state is untouched, on `-2`
the three decoding-progress fields are written back. -/
def finishLoop (ps : MBState) (base : Nat) : LoopRes → Int × Option Nat × MBState
  | .complete sc c => (Int.ofNat (base + c), some sc, MBState.initial)
  | .illegal => (-1, none, ps)
  | .incomplete bl p lb =>
    (-2, none, { ps with bytesleft := bl, part := p, lowerbound := lb })

/-- `mbtoc32` from the source: the restartable UTF-8 byte decoder. Input is
the byte slice `s` (so `s = []` is the `n < 1` early `-2` return); the
result is `(return value, scalar written to *pc32, updated state)`. -/
def mbtoc32 (s : List Nat) (ps : MBState) : Int × Option Nat × MBState :=
  match s with
  | [] => (-2, none, ps)
  | b :: rest =>
    if ps.bytesleft = 0 then
      if b &&& 0x80 = 0 then (1, some b, MBState.initial)
      else if b &&& 0xe0 = 0xc0 then
        finishLoop ps 1 (mbtoc32Loop rest 1 (b &&& 0x1f) 0x80)
      else if b &&& 0xf0 = 0xe0 then
        finishLoop ps 1 (mbtoc32Loop rest 2 (b &&& 0xf) 0x800)
      else if b &&& 0xf8 = 0xf0 then
        finishLoop ps 1 (mbtoc32Loop rest 3 (b &&& 0x7) 0x10000)
      else (-1, none, ps)
    else
      finishLoop ps 0 (mbtoc32Loop (b :: rest) ps.bytesleft ps.part ps.lowerbound)

/-- `rs_mbrtoc32` with non-null `pc32` and non-null `s` (the buffer is the
list `s`, whose length is the `n` argument): runs `mbtoc32` and maps a
successful decode of the NUL scalar to return value 0. -/
def rs_mbrtoc32 (s : List Nat) (ps : MBState) : Int × Option Nat × MBState :=
  let r := mbtoc32 s ps
  if 0 ≤ r.1 ∧ r.2.1 = some 0 then (0, r.2.1, r.2.2) else r

/-- `c32tomb` from the source: encodes a scalar to UTF-8 bytes, returning
`(return value, bytes written)`. Each stored byte goes through an
`as c_char` cast, hence the `% 256`. -/
def c32tomb (c32 : Nat) : Int × List Nat :=
  if c32 ≤ 0x7f then (1, [c32 % 256])
  else if c32 ≤ 0x7ff then
    (2, [0xc0 ||| ((c32 >>> 6) % 256), 0x80 ||| ((c32 &&& 0x3f) % 256)])
  else if c32 ≤ 0xffff then
    if 0xd800 ≤ c32 ∧ c32 ≤ 0xdfff then (-1, [])
    else
      (3, [0xe0 ||| ((c32 >>> 12) % 256), 0x80 ||| (((c32 >>> 6) &&& 0x3f) % 256),
           0x80 ||| ((c32 &&& 0x3f) % 256)])
  else if c32 ≤ 0x10ffff then
    (4, [0xf0 ||| ((c32 >>> 18) % 256), 0x80 ||| (((c32 >>> 12) &&& 0x3f) % 256),
         0x80 ||| (((c32 >>> 6) &&& 0x3f) % 256), 0x80 ||| ((c32 &&& 0x3f) % 256)])
  else (-1, [])

/-- `rs_c32rtomb` with non-null `s`: unconditionally `ps.reset()`, then
`c32tomb`. -/
def rs_c32rtomb (c32 : Nat) (_ps : MBState) : Int × List Nat × MBState :=
  ((c32tomb c32).1, (c32tomb c32).2, MBState.initial)

/-- Canonical UTF-8 form of a scalar, following the authoritative byte-pattern
bit layout of spec §6 (`0xxxxxxx`, `110xxxxx 10xxxxxx`, ...); this is also
the behaviour of Rust's `char::encode_utf8` used by `rs_mbrtoc8`. -/
def utf8Encode (c : Nat) : List Nat :=
  if c ≤ 0x7f then [c]
  else if c ≤ 0x7ff then [0xc0 ||| (c >>> 6), 0x80 ||| (c &&& 0x3f)]
  else if c ≤ 0xffff then
    [0xe0 ||| (c >>> 12), 0x80 ||| ((c >>> 6) &&& 0x3f), 0x80 ||| (c &&& 0x3f)]
  else
    [0xf0 ||| (c >>> 18), 0x80 ||| ((c >>> 12) &&& 0x3f),
     0x80 ||| ((c >>> 6) &&& 0x3f), 0x80 ||| (c &&& 0x3f)]

/-- UTF-16 form of a scalar (Rust's `char::encode_utf16`, and the surrogate
pair bit layout of spec §6). -/
def utf16Encode (c : Nat) : List Nat :=
  if c < 0x10000 then [c]
  else [0xd800 + (c - 0x10000) / 0x400, 0xdc00 + (c - 0x10000) % 0x400]

/-- First item of Rust's `char::decode_utf16` on the two units `u1, u2`:
`some` scalar when `u1` is a non-surrogate (taken alone) or `u1 u2` is a
high/low surrogate pair; `none` (an unpaired-surrogate error) otherwise. -/
def decodeUtf16Pair (u1 u2 : Nat) : Option Nat :=
  if u1 < 0xd800 ∨ 0xdfff < u1 then some u1
  else if u1 ≤ 0xdbff ∧ 0xdc00 ≤ u2 ∧ u2 ≤ 0xdfff then
    some (0x10000 + (u1 - 0xd800) * 0x400 + (u2 - 0xdc00))
  else none

/-- `rs_c16rtomb` with non-null `s`: result is
`(return value, bytes written, updated state)`. With a pending unit in
`u16_surrogate`, the pair `[u16_surrogate, c16]` is decoded (success resets
the state and encodes; failure returns `-1` leaving the state untouched).
Otherwise a lone non-surrogate unit is encoded directly, a high surrogate is
stored in the state with return value 0, and a lone low surrogate falls
through to the `-1` return. -/
def rs_c16rtomb (c16 : Nat) (ps : MBState) : Int × List Nat × MBState :=
  if ps.u16_surrogate ≠ 0 then
    match decodeUtf16Pair ps.u16_surrogate c16 with
    | some c => ((c32tomb c).1, (c32tomb c).2, MBState.initial)
    | none => (-1, [], ps)
  else if c16 < 0xd800 ∨ 0xdfff < c16 then
    ((c32tomb c16).1, (c32tomb c16).2, MBState.initial)
  else if c16 ≤ 0xdbff then
    (0, [], { ps with u16_surrogate := c16 })
  else (-1, [], ps)

/-- `rs_mbrtoc8` with non-null `s`; `outPresent` is whether `pc8` is non-null
(`rc8` in the source). The result is `(return value, unit written, state)`.
The queued-byte drain runs first; otherwise `mbtoc32` decodes a scalar,
which is re-encoded to UTF-8, the bytes stored in `u8_buffer` with
`u8_position = len - 1`, and the first byte delivered. With a null `pc8`
the local `c8 = 0` is never overwritten, so the final `*pc8 == 0` test
makes the function return 0. (The source's `match` arms for `l == 0`,
`-1`, `-2` inside `if l >= 0` are unreachable, since `mbtoc32` never
returns 0, and are not modelled; `char::from_u32` failure is the surrogate
/ out-of-range test.) -/
def rs_mbrtoc8 (outPresent : Bool) (s : List Nat) (ps : MBState) :
    Int × Option Nat × MBState :=
  if ps.u8_position ≠ 0 then
    let total := (ps.u8_buffer.findIdx? (fun b => b == 0)).getD 4
    (-3, if outPresent then some (ps.u8_buffer.getD (total - ps.u8_position) 0) else none,
      { ps with u8_position := ps.u8_position - 1 })
  else
    let r := mbtoc32 s ps
    if 0 ≤ r.1 then
      match r.2.1 with
      | some c32 =>
        if (0xd800 ≤ c32 ∧ c32 ≤ 0xdfff) ∨ 0x10ffff < c32 then (-1, none, r.2.2)
        else
          let res := utf8Encode c32
          let ps2 := { r.2.2 with
            u8_buffer := res ++ r.2.2.u8_buffer.drop res.length
            u8_position := res.length - 1 }
          if outPresent then
            (if res.getD 0 0 = 0 then 0 else r.1, some (res.getD 0 0), ps2)
          else (0, none, ps2)
      | none => (r.1, none, r.2.2)
    else (r.1, none, r.2.2)

/-- `rs_mbrtoc16` with non-null `s`; `outPresent` is whether `pc16` is
non-null. A pending low surrogate is delivered first with `-3`; otherwise
`mbtoc32` decodes a scalar, which is encoded to UTF-16: a surrogate pair
delivers the high unit and queues the low one in `u16_surrogate`. With a
null `pc16` the local `c16 = 0` is never overwritten and the final
`*pc16 == 0` test makes the function return 0. -/
def rs_mbrtoc16 (outPresent : Bool) (s : List Nat) (ps : MBState) :
    Int × Option Nat × MBState :=
  if ps.u16_surrogate ≠ 0 then
    (-3, if outPresent then some ps.u16_surrogate else none,
      { ps with u16_surrogate := 0 })
  else
    let r := mbtoc32 s ps
    if 0 ≤ r.1 then
      match r.2.1 with
      | some c32 =>
        if (0xd800 ≤ c32 ∧ c32 ≤ 0xdfff) ∨ 0x10ffff < c32 then (-1, none, r.2.2)
        else
          let units := utf16Encode c32
          let ps2 := { r.2.2 with
            u16_buffer := units ++ r.2.2.u16_buffer.drop units.length }
          if units.length = 2 then
            let ps3 := { ps2 with u16_surrogate := units.getD 1 0 }
            if outPresent then
              (if units.getD 0 0 = 0 then 0 else r.1, some (units.getD 0 0), ps3)
            else (0, none, ps3)
          else
            if outPresent then
              (if units.getD 0 0 = 0 then 0 else r.1, some (units.getD 0 0), ps2)
            else (0, none, ps2)
      | none => (r.1, none, r.2.2)
    else (r.1, none, r.2.2)

/-- Feeds a sequence of input chunks to `mbtoc32` one call after another on
the same state, collecting each call's `(return value, written scalar)`. -/
def feedChunks (ps : MBState) : List (List Nat) → MBState × List (Int × Option Nat)
  | [] => (ps, [])
  | c :: cs =>
    let r := mbtoc32 c ps
    let rest := feedChunks r.2.2 cs
    (rest.1, (r.1, r.2.1) :: rest.2)

/-! ### Helper lemmas -/

/-- A call of `finishLoop` that produced a scalar came from the `.complete`
branch, whose state is the reset (initial) state. -/
theorem finishLoop_some {ps : MBState} {base : Nat} {r : LoopRes} {l : Int}
    {w : Nat} {ps2 : MBState} (h : finishLoop ps base r = (l, some w, ps2)) :
    ps2 = MBState.initial := by
  cases r <;> simp [finishLoop] at h
  exact h.2.2.symm

/-- On a valid scalar (not a surrogate, at most `0x10FFFF`) the source's
`c32tomb` returns the canonical UTF-8 byte form together with its length:
the `as c_char` truncations are no-ops there. -/
theorem c32tomb_valid (c : Nat) (hs : ¬(0xd800 ≤ c ∧ c ≤ 0xdfff))
    (hr : c ≤ 0x10ffff) :
    c32tomb c = (Int.ofNat (utf8Encode c).length, utf8Encode c) := by
  have a63 : c &&& 63 ≤ 63 := Nat.and_le_right
  have a63b : (c >>> 6) &&& 63 ≤ 63 := Nat.and_le_right
  have a63c : (c >>> 12) &&& 63 ≤ 63 := Nat.and_le_right
  by_cases h1 : c ≤ 0x7f
  · simp [c32tomb, utf8Encode, h1]
    omega
  by_cases h2 : c ≤ 0x7ff
  · have e1 : (c >>> 6) % 256 = c >>> 6 := by omega
    have e2 : (c &&& 63) % 256 = c &&& 63 := by omega
    simp [c32tomb, utf8Encode, h1, h2, e1, e2]
  by_cases h3 : c ≤ 0xffff
  · have e1 : (c >>> 12) % 256 = c >>> 12 := by omega
    have e2 : ((c >>> 6) &&& 63) % 256 = (c >>> 6) &&& 63 := by omega
    have e3 : (c &&& 63) % 256 = c &&& 63 := by omega
    simp [c32tomb, utf8Encode, h1, h2, h3, hs, e1, e2, e3]
  · have e1 : (c >>> 18) % 256 = c >>> 18 := by omega
    have e2 : ((c >>> 12) &&& 63) % 256 = (c >>> 12) &&& 63 := by omega
    have e3 : ((c >>> 6) &&& 63) % 256 = (c >>> 6) &&& 63 := by omega
    have e4 : (c &&& 63) % 256 = c &&& 63 := by omega
    simp [c32tomb, utf8Encode, h1, h2, h3, hr, e1, e2, e3, e4]

/-- On a surrogate or out-of-range input `c32tomb` fails with `-1` and
writes nothing. -/
theorem c32tomb_invalid (c : Nat)
    (h : (0xd800 ≤ c ∧ c ≤ 0xdfff) ∨ 0x10ffff < c) :
    c32tomb c = (-1, []) := by
  rcases h with h | h
  · simp [c32tomb, show ¬ c ≤ 0x7f by omega, show ¬ c ≤ 0x7ff by omega,
      show c ≤ 0xffff by omega, h.1, h.2]
  · simp [c32tomb, show ¬ c ≤ 0x7f by omega, show ¬ c ≤ 0x7ff by omega,
      show ¬ c ≤ 0xffff by omega, show ¬ c ≤ 0x10ffff by omega]

/-- Length of the canonical encoding, by scalar range. -/
theorem utf8Encode_length (c : Nat) :
    (c ≤ 0x7f → (utf8Encode c).length = 1) ∧
    (0x80 ≤ c → c ≤ 0x7ff → (utf8Encode c).length = 2) ∧
    (0x800 ≤ c → c ≤ 0xffff → (utf8Encode c).length = 3) ∧
    (0x10000 ≤ c → (utf8Encode c).length = 4) := by
  refine ⟨fun h => by simp [utf8Encode, h], fun h h2 => ?_, fun h h2 => ?_, fun h => ?_⟩
  · simp [utf8Encode, show ¬ c ≤ 0x7f by omega, h2]
  · simp [utf8Encode, show ¬ c ≤ 0x7f by omega, show ¬ c ≤ 0x7ff by omega, h2]
  · simp [utf8Encode, show ¬ c ≤ 0x7f by omega, show ¬ c ≤ 0x7ff by omega,
      show ¬ c ≤ 0xffff by omega]

/-! ### Bit-level bridge lemmas -/

/-- Mask by `0x3F` is reduction mod 64. -/
theorem and63_mod (x : Nat) : x &&& 0x3f = x % 64 := by
  simpa using Nat.and_pow_two_sub_one_eq_mod x 6

/-- The shift-or fold step of the decoder loop, in arithmetic form: with the
accumulator small enough that the `u32` truncation is a no-op, folding in a
6-bit field is multiply-and-add. -/
theorem fold_eq (p r : Nat) (hp : p < 0x4000000) (hr : r < 64) :
    ((p <<< 6) % 4294967296) ||| r = 64 * p + r := by
  have hs : p <<< 6 = 64 * p := by rw [Nat.shiftLeft_eq]; ring
  have hm : (64 * p) % 4294967296 = 64 * p := Nat.mod_eq_of_lt (by omega)
  rw [hs, hm]
  have h := Nat.mul_add_lt_is_or (i := 6) hr p
  simpa using h.symm

/-- An ASCII byte fails the `0x80` bit test. -/
theorem ascii_facts : ∀ b < 128, b &&& 0x80 = 0 := by decide

/-- Classification of a continuation byte `0x80 ||| r`. -/
theorem cont_byte_facts : ∀ r < 64,
    ((0x80 ||| r) &&& 0xc0 = 0x80) ∧ ((0x80 ||| r) &&& 0x3f = r) ∧
    (0x80 ||| r) < 256 := by decide

/-- Classification of a 2-byte lead `0xC0 ||| q`. -/
theorem lead2_facts : ∀ q < 32,
    ¬((0xc0 ||| q) &&& 0x80 = 0) ∧ ((0xc0 ||| q) &&& 0xe0 = 0xc0) ∧
    ((0xc0 ||| q) &&& 0x1f = q) := by decide

/-- Classification of a 3-byte lead `0xE0 ||| q`. -/
theorem lead3_facts : ∀ q < 16,
    ¬((0xe0 ||| q) &&& 0x80 = 0) ∧ ¬((0xe0 ||| q) &&& 0xe0 = 0xc0) ∧
    ((0xe0 ||| q) &&& 0xf0 = 0xe0) ∧ ((0xe0 ||| q) &&& 0xf = q) := by decide

/-- Classification of a 4-byte lead `0xF0 ||| q`. -/
theorem lead4_facts : ∀ q < 8,
    ¬((0xf0 ||| q) &&& 0x80 = 0) ∧ ¬((0xf0 ||| q) &&& 0xe0 = 0xc0) ∧
    ¬((0xf0 ||| q) &&& 0xf0 = 0xe0) ∧ ((0xf0 ||| q) &&& 0xf8 = 0xf0) ∧
    ((0xf0 ||| q) &&& 0x7 = q) := by decide

/-! ### Unfolding lemmas for `mbtoc32` and its loop -/

/-- Unfolds `mbtoc32` on an ASCII lead byte (initial decoder state). -/
theorem mbtoc32_ascii (b : Nat) (rest : List Nat) (ps : MBState)
    (h0 : ps.bytesleft = 0) (hA : b &&& 0x80 = 0) :
    mbtoc32 (b :: rest) ps = (1, some b, MBState.initial) := by
  simp only [mbtoc32]
  rw [if_pos h0, if_pos hA]

/-- Unfolds `mbtoc32` on a 2-byte lead (initial decoder state). -/
theorem mbtoc32_lead2 (b : Nat) (rest : List Nat) (ps : MBState)
    (h0 : ps.bytesleft = 0) (hA : ¬(b &&& 0x80 = 0)) (hB : b &&& 0xe0 = 0xc0) :
    mbtoc32 (b :: rest) ps = finishLoop ps 1 (mbtoc32Loop rest 1 (b &&& 0x1f) 0x80) := by
  simp only [mbtoc32]
  rw [if_pos h0, if_neg hA, if_pos hB]

/-- Unfolds `mbtoc32` on a 3-byte lead (initial decoder state). -/
theorem mbtoc32_lead3 (b : Nat) (rest : List Nat) (ps : MBState)
    (h0 : ps.bytesleft = 0) (hA : ¬(b &&& 0x80 = 0)) (hB : ¬(b &&& 0xe0 = 0xc0))
    (hC : b &&& 0xf0 = 0xe0) :
    mbtoc32 (b :: rest) ps = finishLoop ps 1 (mbtoc32Loop rest 2 (b &&& 0xf) 0x800) := by
  simp only [mbtoc32]
  rw [if_pos h0, if_neg hA, if_neg hB, if_pos hC]

/-- Unfolds `mbtoc32` on a 4-byte lead (initial decoder state). -/
theorem mbtoc32_lead4 (b : Nat) (rest : List Nat) (ps : MBState)
    (h0 : ps.bytesleft = 0) (hA : ¬(b &&& 0x80 = 0)) (hB : ¬(b &&& 0xe0 = 0xc0))
    (hC : ¬(b &&& 0xf0 = 0xe0)) (hD : b &&& 0xf8 = 0xf0) :
    mbtoc32 (b :: rest) ps = finishLoop ps 1 (mbtoc32Loop rest 3 (b &&& 0x7) 0x10000) := by
  simp only [mbtoc32]
  rw [if_pos h0, if_neg hA, if_neg hB, if_neg hC, if_pos hD]

/-- Unfolds `mbtoc32` mid-sequence: a nonzero `bytesleft` goes straight to
the continuation loop. -/
theorem mbtoc32_resume (b : Nat) (rest : List Nat) (ps : MBState)
    (h0 : ¬(ps.bytesleft = 0)) :
    mbtoc32 (b :: rest) ps =
      finishLoop ps 0 (mbtoc32Loop (b :: rest) ps.bytesleft ps.part ps.lowerbound) := by
  simp only [mbtoc32]
  rw [if_neg h0]

/-- The loop on its final expected continuation byte: fold, validate,
complete. `hfold` names the assembled scalar. -/
theorem loop_last (b p lb S : Nat) (rest : List Nat) (hc : b &&& 0xc0 = 0x80)
    (hfold : ((p <<< 6) % 4294967296) ||| (b &&& 0x3f) = S)
    (hok : ¬(S < lb ∨ (0xd800 ≤ S ∧ S ≤ 0xdfff) ∨ 0x10ffff < S)) :
    mbtoc32Loop (b :: rest) 1 p lb = .complete S 1 := by
  simp only [mbtoc32Loop]
  rw [if_neg (fun hne => hne hc), if_pos trivial, hfold, if_neg hok]

/-- The loop on a non-final continuation byte: fold and recurse. -/
theorem loop_step (b : Nat) (rest : List Nat) (bl p lb : Nat)
    (hc : b &&& 0xc0 = 0x80) (hbl : ¬(bl - 1 = 0)) :
    mbtoc32Loop (b :: rest) bl p lb =
      match mbtoc32Loop rest (bl - 1) (((p <<< 6) % 4294967296) ||| (b &&& 0x3f)) lb with
      | .complete sc c => .complete sc (c + 1)
      | .illegal => .illegal
      | .incomplete bl2 q lb2 => .incomplete bl2 q lb2 := by
  simp only [mbtoc32Loop]
  rw [if_neg (fun hne => hne hc), if_neg hbl]

/-! ### Decoding the canonical encoding, one length at a time -/

/-- Decoding a canonically encoded 1-byte (ASCII) scalar. -/
theorem decode_one (S : Nat) (h : S ≤ 0x7f) :
    mbtoc32 [S] MBState.initial = (1, some S, MBState.initial) := by
  have h80 : S &&& 0x80 = 0 := ascii_facts S (by omega)
  simp [mbtoc32, MBState.initial, h80]

/-- Decoding a canonically encoded 2-byte scalar. -/
theorem decode_two (S : Nat) (h1 : 0x80 ≤ S) (h2 : S ≤ 0x7ff) :
    mbtoc32 [0xc0 ||| (S >>> 6), 0x80 ||| (S &&& 0x3f)] MBState.initial =
      (2, some S, MBState.initial) := by
  have hq : S >>> 6 < 32 := by omega
  have hmod : S &&& 0x3f = S % 64 := and63_mod S
  have hr : S &&& 0x3f < 64 := by omega
  obtain ⟨l1, l2, l3⟩ := lead2_facts _ hq
  obtain ⟨c1, c2, _⟩ := cont_byte_facts _ hr
  have hfold : ((S >>> 6 <<< 6) % 4294967296) ||| ((0x80 ||| (S &&& 0x3f)) &&& 0x3f)
      = S := by
    rw [c2, fold_eq _ _ (by omega) hr]
    omega
  simp only [mbtoc32]
  rw [if_pos (show MBState.initial.bytesleft = 0 from rfl)]
  rw [if_neg l1, if_pos l2, l3]
  simp only [mbtoc32Loop]
  rw [if_neg (fun hne => hne c1), if_pos trivial]
  rw [hfold]
  rw [if_neg (by omega)]
  simp [finishLoop]

/-- Decoding a canonically encoded 3-byte scalar. -/
theorem decode_three (S : Nat) (h1 : 0x800 ≤ S) (h2 : S ≤ 0xffff)
    (hs : ¬(0xd800 ≤ S ∧ S ≤ 0xdfff)) :
    mbtoc32 [0xe0 ||| (S >>> 12), 0x80 ||| ((S >>> 6) &&& 0x3f),
      0x80 ||| (S &&& 0x3f)] MBState.initial = (3, some S, MBState.initial) := by
  have hq : S >>> 12 < 16 := by omega
  have hm1 : (S >>> 6) &&& 0x3f = (S >>> 6) % 64 := and63_mod _
  have hm2 : S &&& 0x3f = S % 64 := and63_mod _
  have hr1 : (S >>> 6) &&& 0x3f < 64 := by omega
  have hr2 : S &&& 0x3f < 64 := by omega
  obtain ⟨l1, l2, l3, l4⟩ := lead3_facts _ hq
  obtain ⟨c1a, c1b, _⟩ := cont_byte_facts _ hr1
  obtain ⟨c2a, c2b, _⟩ := cont_byte_facts _ hr2
  rw [mbtoc32_lead3 _ _ _ rfl l1 l2 l3, l4]
  rw [loop_step _ _ _ _ _ c1a (by norm_num)]
  have e1 : ((S >>> 12 <<< 6) % 4294967296) |||
      ((0x80 ||| ((S >>> 6) &&& 0x3f)) &&& 0x3f) =
      64 * (S >>> 12) + ((S >>> 6) &&& 0x3f) := by
    rw [c1b, fold_eq _ _ (by omega) hr1]
  rw [e1]
  have eS : (((64 * (S >>> 12) + ((S >>> 6) &&& 0x3f)) <<< 6) % 4294967296) |||
      ((0x80 ||| (S &&& 0x3f)) &&& 0x3f) = S := by
    rw [c2b, fold_eq _ _ (by omega) hr2]
    omega
  rw [loop_last _ _ _ S _ c2a eS (by omega)]
  simp [finishLoop]

/-- Decoding a canonically encoded 4-byte scalar. -/
theorem decode_four (S : Nat) (h1 : 0x10000 ≤ S) (h2 : S ≤ 0x10ffff) :
    mbtoc32 [0xf0 ||| (S >>> 18), 0x80 ||| ((S >>> 12) &&& 0x3f),
      0x80 ||| ((S >>> 6) &&& 0x3f), 0x80 ||| (S &&& 0x3f)] MBState.initial =
      (4, some S, MBState.initial) := by
  have hq : S >>> 18 < 8 := by omega
  have hm1 : (S >>> 12) &&& 0x3f = (S >>> 12) % 64 := and63_mod _
  have hm2 : (S >>> 6) &&& 0x3f = (S >>> 6) % 64 := and63_mod _
  have hm3 : S &&& 0x3f = S % 64 := and63_mod _
  have hr1 : (S >>> 12) &&& 0x3f < 64 := by omega
  have hr2 : (S >>> 6) &&& 0x3f < 64 := by omega
  have hr3 : S &&& 0x3f < 64 := by omega
  obtain ⟨l1, l2, l3, l4, l5⟩ := lead4_facts _ hq
  obtain ⟨c1a, c1b, _⟩ := cont_byte_facts _ hr1
  obtain ⟨c2a, c2b, _⟩ := cont_byte_facts _ hr2
  obtain ⟨c3a, c3b, _⟩ := cont_byte_facts _ hr3
  rw [mbtoc32_lead4 _ _ _ rfl l1 l2 l3 l4, l5]
  rw [loop_step _ _ _ _ _ c1a (by norm_num)]
  have e1 : ((S >>> 18 <<< 6) % 4294967296) |||
      ((0x80 ||| ((S >>> 12) &&& 0x3f)) &&& 0x3f) =
      64 * (S >>> 18) + ((S >>> 12) &&& 0x3f) := by
    rw [c1b, fold_eq _ _ (by omega) hr1]
  rw [e1]
  rw [loop_step _ _ _ _ _ c2a (by norm_num)]
  have e2 : (((64 * (S >>> 18) + ((S >>> 12) &&& 0x3f)) <<< 6) % 4294967296) |||
      ((0x80 ||| ((S >>> 6) &&& 0x3f)) &&& 0x3f) =
      64 * (64 * (S >>> 18) + ((S >>> 12) &&& 0x3f)) + ((S >>> 6) &&& 0x3f) := by
    rw [c2b, fold_eq _ _ (by omega) hr2]
  rw [e2]
  have eS : (((64 * (64 * (S >>> 18) + ((S >>> 12) &&& 0x3f)) +
      ((S >>> 6) &&& 0x3f)) <<< 6) % 4294967296) |||
      ((0x80 ||| (S &&& 0x3f)) &&& 0x3f) = S := by
    rw [c3b, fold_eq _ _ (by omega) hr3]
    omega
  rw [loop_last _ _ _ S _ c3a eS (by omega)]
  simp [finishLoop]

/-- Decoding the canonical encoding of any valid scalar recovers the scalar,
consuming exactly the encoded length. -/
theorem mbtoc32_utf8Encode (S : Nat) (hr : S ≤ 0x10ffff)
    (hs : ¬(0xd800 ≤ S ∧ S ≤ 0xdfff)) :
    mbtoc32 (utf8Encode S) MBState.initial =
      (Int.ofNat (utf8Encode S).length, some S, MBState.initial) := by
  by_cases h1 : S ≤ 0x7f
  · have hE : utf8Encode S = [S] := by simp [utf8Encode, h1]
    rw [hE, decode_one S h1]
    rfl
  by_cases h2 : S ≤ 0x7ff
  · have hE : utf8Encode S = [0xc0 ||| (S >>> 6), 0x80 ||| (S &&& 0x3f)] := by
      simp [utf8Encode, h1, h2]
    rw [hE, decode_two S (by omega) h2]
    rfl
  by_cases h3 : S ≤ 0xffff
  · have hE : utf8Encode S = [0xe0 ||| (S >>> 12), 0x80 ||| ((S >>> 6) &&& 0x3f),
        0x80 ||| (S &&& 0x3f)] := by
      simp [utf8Encode, h1, h2, h3]
    rw [hE, decode_three S (by omega) h3 hs]
    rfl
  · have hE : utf8Encode S = [0xf0 ||| (S >>> 18), 0x80 ||| ((S >>> 12) &&& 0x3f),
        0x80 ||| ((S >>> 6) &&& 0x3f), 0x80 ||| (S &&& 0x3f)] := by
      simp [utf8Encode, h1, h2, h3]
    rw [hE, decode_four S (by omega) hr]
    rfl

/-! ### Properties of completed decodes -/

/-- A scalar completed by the loop passed the final validation: it is not a
surrogate and does not exceed 0x10FFFF. -/
theorem loop_complete_valid (s : List Nat) : ∀ bl p lb sc k,
    mbtoc32Loop s bl p lb = .complete sc k →
    ¬(0xd800 ≤ sc ∧ sc ≤ 0xdfff) ∧ sc ≤ 0x10ffff := by
  induction s with
  | nil =>
    intro bl p lb sc k h
    simp [mbtoc32Loop] at h
  | cons b rest ih =>
    intro bl p lb sc k h
    simp only [mbtoc32Loop] at h
    split at h
    · simp at h
    · split at h
      · split at h
        · simp at h
        · rename_i hcond
          simp only [LoopRes.complete.injEq] at h
          obtain ⟨hsc, -⟩ := h
          rw [← hsc]
          omega
      · split at h
        · rename_i sc2 c2 hm
          simp only [LoopRes.complete.injEq] at h
          obtain ⟨hsc, -⟩ := h
          subst hsc
          exact ih _ _ _ _ _ hm
        · simp at h
        · simp at h

/-- A byte below 256 passing the ASCII test is below 128. -/
theorem ascii_byte_lt : ∀ b < 256, b &&& 0x80 = 0 → b < 128 := by decide

/-- Any scalar produced by `mbtoc32` on genuine bytes (< 256) is a valid
Unicode scalar value. -/
theorem mbtoc32_some_valid (s : List Nat) (ps : MBState) (l : Int) (c : Nat)
    (ps2 : MBState) (hb : ∀ b ∈ s, b < 256)
    (h : mbtoc32 s ps = (l, some c, ps2)) :
    ¬(0xd800 ≤ c ∧ c ≤ 0xdfff) ∧ c ≤ 0x10ffff := by
  rcases s with _ | ⟨b, rest⟩
  · simp [mbtoc32] at h
  · simp only [mbtoc32] at h
    split at h
    · split at h
      · simp only [Prod.mk.injEq] at h
        obtain ⟨-, hc, -⟩ := h
        rename_i hA
        have hlt : b < 128 := ascii_byte_lt b (hb b (by simp)) hA
        simp only [Option.some.injEq] at hc
        omega
      · split at h
        · rcases hm : mbtoc32Loop rest 1 (b &&& 0x1f) 0x80 with ⟨sc, k⟩ | _ | ⟨a1, a2, a3⟩ <;>
            rw [hm] at h <;> simp [finishLoop] at h
          obtain ⟨-, hc, -⟩ := h
          subst hc
          exact loop_complete_valid _ _ _ _ _ _ hm
        · split at h
          · rcases hm : mbtoc32Loop rest 2 (b &&& 0xf) 0x800 with ⟨sc, k⟩ | _ | ⟨a1, a2, a3⟩ <;>
              rw [hm] at h <;> simp [finishLoop] at h
            obtain ⟨-, hc, -⟩ := h
            subst hc
            exact loop_complete_valid _ _ _ _ _ _ hm
          · split at h
            · rcases hm : mbtoc32Loop rest 3 (b &&& 0x7) 0x10000 with ⟨sc, k⟩ | _ | ⟨a1, a2, a3⟩ <;>
                rw [hm] at h <;> simp [finishLoop] at h
              obtain ⟨-, hc, -⟩ := h
              subst hc
              exact loop_complete_valid _ _ _ _ _ _ hm
            · simp [Prod.mk.injEq] at h
    · rcases hm : mbtoc32Loop (b :: rest) ps.bytesleft ps.part ps.lowerbound with
        ⟨sc, k⟩ | _ | ⟨a1, a2, a3⟩ <;> rw [hm] at h <;> simp [finishLoop] at h
      obtain ⟨-, hc, -⟩ := h
      subst hc
      exact loop_complete_valid _ _ _ _ _ _ hm

/-! ### Success-path unfoldings of the per-unit decode operations -/

/-- The first canonical byte of a nonzero scalar is nonzero. -/
theorem utf8Encode_head_ne (c : Nat) (h : c ≠ 0) (hr : c ≤ 0x10ffff) :
    (utf8Encode c).getD 0 0 ≠ 0 := by
  have h1 : ∀ q < 32, 0xc0 ||| q ≠ 0 := by decide
  have h2 : ∀ q < 16, 0xe0 ||| q ≠ 0 := by decide
  have h3 : ∀ q < 8, 0xf0 ||| q ≠ 0 := by decide
  by_cases hA : c ≤ 0x7f
  · simpa [utf8Encode, hA] using h
  by_cases hB : c ≤ 0x7ff
  · simpa [utf8Encode, hA, hB] using h1 (c >>> 6) (by omega)
  by_cases hC : c ≤ 0xffff
  · simpa [utf8Encode, hA, hB, hC] using h2 (c >>> 12) (by omega)
  · simpa [utf8Encode, hA, hB, hC] using h3 (c >>> 18) (by omega)

/-- `rs_mbrtoc8` after a successful scalar decode: the scalar's canonical
bytes are queued (`u8_position = len - 1`) and the first byte delivered;
with a null output pointer the return value collapses to 0. -/
theorem rsmb8_success (s : List Nat) (ps : MBState) (l c : Nat) (outP : Bool)
    (hpos : ps.u8_position = 0)
    (h : mbtoc32 s ps = (Int.ofNat l, some c, MBState.initial))
    (hv : ¬((0xd800 ≤ c ∧ c ≤ 0xdfff) ∨ 0x10ffff < c)) :
    rs_mbrtoc8 outP s ps =
      (if outP then (if (utf8Encode c).getD 0 0 = 0 then 0 else Int.ofNat l) else 0,
       if outP then some ((utf8Encode c).getD 0 0) else none,
       { MBState.initial with
         u8_buffer :=
           utf8Encode c ++ MBState.initial.u8_buffer.drop (utf8Encode c).length,
         u8_position := (utf8Encode c).length - 1 }) := by
  simp only [rs_mbrtoc8, hpos, h]
  rw [if_neg (by simp)]
  rw [if_pos (by exact Int.ofNat_nonneg l)]
  rw [if_neg hv]
  cases outP <;> simp

/-- `rs_mbrtoc16` after a successful decode of a BMP scalar: one unit, no
queue. -/
theorem rsmb16_success_bmp (s : List Nat) (ps : MBState) (l c : Nat) (outP : Bool)
    (hpos : ps.u16_surrogate = 0)
    (h : mbtoc32 s ps = (Int.ofNat l, some c, MBState.initial))
    (hhi : c < 0x10000) (hv : ¬(0xd800 ≤ c ∧ c ≤ 0xdfff)) :
    rs_mbrtoc16 outP s ps =
      (if outP then (if c = 0 then 0 else Int.ofNat l) else 0,
       if outP then some c else none,
       { MBState.initial with u16_buffer := [c, 0] }) := by
  simp only [rs_mbrtoc16, hpos, h]
  rw [if_neg (by simp)]
  rw [if_pos (by exact Int.ofNat_nonneg l)]
  rw [if_neg (by omega)]
  have hu : utf16Encode c = [c] := by simp [utf16Encode, hhi]
  rw [hu]
  cases outP <;> simp [MBState.initial]

/-- `rs_mbrtoc16` after a successful decode of a supplementary-plane scalar:
the high surrogate is delivered and the low surrogate queued in
`u16_surrogate`. -/
theorem rsmb16_success_supp (s : List Nat) (ps : MBState) (l c hi lo : Nat)
    (outP : Bool) (hpos : ps.u16_surrogate = 0)
    (h : mbtoc32 s ps = (Int.ofNat l, some c, MBState.initial))
    (hclo : 0x10000 ≤ c) (hchi : c ≤ 0x10ffff)
    (hhiv : hi = 0xd800 + (c - 0x10000) / 0x400)
    (hlov : lo = 0xdc00 + (c - 0x10000) % 0x400) :
    rs_mbrtoc16 outP s ps =
      (if outP then Int.ofNat l else 0,
       if outP then some hi else none,
       { MBState.initial with u16_buffer := [hi, lo], u16_surrogate := lo }) := by
  simp only [rs_mbrtoc16, hpos, h]
  rw [if_neg (by simp)]
  rw [if_pos (by exact Int.ofNat_nonneg l)]
  rw [if_neg (by omega)]
  have hu : utf16Encode c = [hi, lo] := by
    simp [utf16Encode, show ¬ c < 0x10000 by omega, ← hhiv, ← hlov]
  rw [hu]
  cases outP <;> simp [MBState.initial] <;> omega

/-! ### Raw 3-byte decode, queue drain, and state-congruence lemmas -/

/-- A byte below 256 matching the 3-byte lead pattern fails the earlier
lead tests. -/
theorem lead3_of_byte : ∀ b < 256, b &&& 0xf0 = 0xe0 →
    ¬(b &&& 0x80 = 0) ∧ ¬(b &&& 0xe0 = 0xc0) := by decide

/-- A continuation byte `0x80 ||| r` is nonzero. -/
theorem cont_nonzero : ∀ r < 64, ¬(0x80 ||| r = 0) := by decide

/-- A 3-byte lead `0xE0 ||| q` is nonzero. -/
theorem lead3_nonzero : ∀ q < 16, ¬(0xe0 ||| q = 0) := by decide

/-- Decoding a valid (well-formed, in-range, non-overlong, non-surrogate)
3-byte sequence given by its raw bytes. -/
theorem decode_three_raw (b0 b1 b2 c : Nat)
    (hb0 : b0 < 256) (hl : b0 &&& 0xf0 = 0xe0)
    (hc1 : b1 &&& 0xc0 = 0x80) (hc2 : b2 &&& 0xc0 = 0x80)
    (hcv : c = 64 * (64 * (b0 &&& 0xf) + (b1 &&& 0x3f)) + (b2 &&& 0x3f))
    (hlb : 0x800 ≤ c) (hs : ¬(0xd800 ≤ c ∧ c ≤ 0xdfff)) :
    mbtoc32 [b0, b1, b2] MBState.initial = (Int.ofNat 3, some c, MBState.initial) := by
  obtain ⟨lA, lB⟩ := lead3_of_byte b0 hb0 hl
  have hq : b0 &&& 0xf < 16 := by
    have : b0 &&& 0xf ≤ 0xf := Nat.and_le_right
    omega
  have hr1 : b1 &&& 0x3f < 64 := by
    have : b1 &&& 0x3f ≤ 0x3f := Nat.and_le_right
    omega
  have hr2 : b2 &&& 0x3f < 64 := by
    have : b2 &&& 0x3f ≤ 0x3f := Nat.and_le_right
    omega
  rw [mbtoc32_lead3 _ _ _ rfl lA lB hl]
  rw [loop_step _ _ _ _ _ hc1 (by norm_num)]
  have e1 : (((b0 &&& 0xf) <<< 6) % 4294967296) ||| (b1 &&& 0x3f)
      = 64 * (b0 &&& 0xf) + (b1 &&& 0x3f) := fold_eq _ _ (by omega) hr1
  rw [e1]
  have eS : (((64 * (b0 &&& 0xf) + (b1 &&& 0x3f)) <<< 6) % 4294967296) |||
      (b2 &&& 0x3f) = c := by
    rw [fold_eq _ _ (by omega) hr2]
    omega
  rw [loop_last _ _ _ c _ hc2 eS (by omega)]
  simp [finishLoop]

/-- Draining one queued byte from a full 3-byte queue: the input buffer is
ignored, and the byte at `total - u8_position` is delivered with `-3`. -/
theorem drain3 (ps : MBState) (s : List Nat) (B0 B1 B2 k : Nat)
    (h0 : ¬(B0 = 0)) (h1 : ¬(B1 = 0)) (h2 : ¬(B2 = 0))
    (hbuf : ps.u8_buffer = [B0, B1, B2, 0]) (hk : ps.u8_position = k)
    (hkn : k ≠ 0) :
    rs_mbrtoc8 true s ps =
      (-3, some (([B0, B1, B2, 0] : List Nat).getD (3 - k) 0),
        { ps with u8_position := k - 1 }) := by
  simp only [rs_mbrtoc8, hk, hbuf]
  rw [if_pos hkn]
  have hfi : (([B0, B1, B2, 0] : List Nat).findIdx? (fun b => b == 0)).getD 4 = 3 := by
    simp [List.findIdx?, h0, h1, h2]
  rw [hfi]
  simp

/-- The projections of `finishLoop` other than the state do not depend on
the pre-call state. -/
theorem finishLoop_code (ps qs : MBState) (b : Nat) (r : LoopRes) :
    (finishLoop ps b r).1 = (finishLoop qs b r).1 ∧
    (finishLoop ps b r).2.1 = (finishLoop qs b r).2.1 := by
  cases r <;> simp [finishLoop]

/-- `mbtoc32`'s return value and written scalar depend only on the three
decoding-progress fields of the state. -/
theorem mbtoc32_congr (s : List Nat) (ps qs : MBState)
    (h1 : ps.bytesleft = qs.bytesleft) (h2 : ps.part = qs.part)
    (h3 : ps.lowerbound = qs.lowerbound) :
    (mbtoc32 s ps).1 = (mbtoc32 s qs).1 ∧
    (mbtoc32 s ps).2.1 = (mbtoc32 s qs).2.1 := by
  rcases s with _ | ⟨b, rest⟩
  · simp [mbtoc32]
  · simp only [mbtoc32, h1, h2, h3]
    split
    · split
      · simp
      · split
        · exact finishLoop_code _ _ _ _
        · split
          · exact finishLoop_code _ _ _ _
          · split
            · exact finishLoop_code _ _ _ _
            · simp
    · exact finishLoop_code _ _ _ _

/-- `rs_mbrtoc8` on a state whose queue and decoding-progress fields are
clear behaves, in return value and delivered unit, exactly like a call on
the initial state: new input is consumed normally. -/
theorem rsmb8_fresh_eq (s4 : List Nat) (st : MBState)
    (hpos : st.u8_position = 0) (hb : st.bytesleft = 0) (hp : st.part = 0)
    (hlb : st.lowerbound = 0) :
    (rs_mbrtoc8 true s4 st).1 = (rs_mbrtoc8 true s4 MBState.initial).1 ∧
    (rs_mbrtoc8 true s4 st).2.1 = (rs_mbrtoc8 true s4 MBState.initial).2.1 := by
  obtain ⟨e1, e2⟩ := mbtoc32_congr s4 st MBState.initial
    (by rw [hb]; rfl) (by rw [hp]; rfl) (by rw [hlb]; rfl)
  rcases hA : mbtoc32 s4 MBState.initial with ⟨l0, w0, q0⟩
  rcases hB : mbtoc32 s4 st with ⟨l3, w3, q3⟩
  rw [hA, hB] at e1 e2
  simp only at e1 e2
  subst e1
  subst e2
  simp [rs_mbrtoc8, hpos, hA, hB]
  rw [if_pos (show MBState.initial.u8_position = 0 from rfl)]
  refine ⟨?_, ?_⟩ <;>
  · split
    · split
      · split <;> rfl
      · rfl
    · rfl

/-! ### Claim C9 (confirmed): queued-unit drain in `rs_mbrtoc8` -/

/-- Claim C9: decoding, from the initial state, a valid 3-byte UTF-8
sequence returns the consumed-byte count 3 together with the first
re-encoded UTF-8 byte and queues the other two; each of the next two calls,
regardless of the input supplied, returns `-3` delivering the second then
the third queued byte without consuming input; the call after that behaves
on its input exactly like a call on the initial state. -/
theorem mbrtoc8_queue_drain (b0 b1 b2 c : Nat)
    (hb0 : b0 < 256) (hb1 : b1 < 256) (hb2 : b2 < 256)
    (hl : b0 &&& 0xf0 = 0xe0) (hc1 : b1 &&& 0xc0 = 0x80) (hc2 : b2 &&& 0xc0 = 0x80)
    (hcv : c = 64 * (64 * (b0 &&& 0xf) + (b1 &&& 0x3f)) + (b2 &&& 0x3f))
    (hlb : 0x800 ≤ c) (hs : ¬(0xd800 ≤ c ∧ c ≤ 0xdfff)) :
    rs_mbrtoc8 true [b0, b1, b2] MBState.initial =
      (Int.ofNat 3, some ((utf8Encode c).getD 0 0),
        { MBState.initial with u8_buffer := utf8Encode c ++ [0], u8_position := 2 }) ∧
    (∀ s2, rs_mbrtoc8 true s2
        { MBState.initial with u8_buffer := utf8Encode c ++ [0], u8_position := 2 } =
      (-3, some ((utf8Encode c).getD 1 0),
        { MBState.initial with u8_buffer := utf8Encode c ++ [0], u8_position := 1 })) ∧
    (∀ s3, rs_mbrtoc8 true s3
        { MBState.initial with u8_buffer := utf8Encode c ++ [0], u8_position := 1 } =
      (-3, some ((utf8Encode c).getD 2 0),
        { MBState.initial with u8_buffer := utf8Encode c ++ [0], u8_position := 0 })) ∧
    (∀ s4, (rs_mbrtoc8 true s4
        { MBState.initial with u8_buffer := utf8Encode c ++ [0], u8_position := 0 }).1 =
          (rs_mbrtoc8 true s4 MBState.initial).1 ∧
      (rs_mbrtoc8 true s4
        { MBState.initial with u8_buffer := utf8Encode c ++ [0], u8_position := 0 }).2.1 =
          (rs_mbrtoc8 true s4 MBState.initial).2.1) := by
  have hq : b0 &&& 0xf ≤ 0xf := Nat.and_le_right
  have hx1 : b1 &&& 0x3f ≤ 0x3f := Nat.and_le_right
  have hx2 : b2 &&& 0x3f ≤ 0x3f := Nat.and_le_right
  have hcle : c ≤ 0xffff := by omega
  have hdec := decode_three_raw b0 b1 b2 c hb0 hl hc1 hc2 hcv hlb hs
  have hE : utf8Encode c = [0xe0 ||| (c >>> 12), 0x80 ||| ((c >>> 6) &&& 0x3f),
      0x80 ||| (c &&& 0x3f)] := by
    simp [utf8Encode, show ¬ c ≤ 0x7f by omega, show ¬ c ≤ 0x7ff by omega, hcle]
  have hlen : (utf8Encode c).length = 3 := by rw [hE]; rfl
  have hr1 : (c >>> 6) &&& 0x3f < 64 := by
    have : (c >>> 6) &&& 0x3f ≤ 0x3f := Nat.and_le_right
    omega
  have hr2 : c &&& 0x3f < 64 := by
    have : c &&& 0x3f ≤ 0x3f := Nat.and_le_right
    omega
  have hB0 : ¬((utf8Encode c).getD 0 0 = 0) := utf8Encode_head_ne c (by omega) (by omega)
  have hB0e : ¬((0xe0 ||| (c >>> 12)) = 0) := lead3_nonzero _ (by omega)
  have hB1 : ¬((0x80 ||| ((c >>> 6) &&& 0x3f)) = 0) := cont_nonzero _ hr1
  have hB2 : ¬((0x80 ||| (c &&& 0x3f)) = 0) := cont_nonzero _ hr2
  refine ⟨?_, fun s2 => ?_, fun s3 => ?_, fun s4 => ?_⟩
  · have h1 := rsmb8_success [b0, b1, b2] MBState.initial 3 c true rfl hdec (by omega)
    rw [h1, if_neg hB0]
    simp [hlen, MBState.initial]
  · have h2 := drain3
      { MBState.initial with u8_buffer := utf8Encode c ++ [0], u8_position := 2 }
      s2 (0xe0 ||| (c >>> 12)) (0x80 ||| ((c >>> 6) &&& 0x3f)) (0x80 ||| (c &&& 0x3f))
      2 hB0e hB1 hB2 (by simp [hE]) rfl (by norm_num)
    rw [h2]
    simp [hE]
  · have h3 := drain3
      { MBState.initial with u8_buffer := utf8Encode c ++ [0], u8_position := 1 }
      s3 (0xe0 ||| (c >>> 12)) (0x80 ||| ((c >>> 6) &&& 0x3f)) (0x80 ||| (c &&& 0x3f))
      1 hB0e hB1 hB2 (by simp [hE]) rfl (by norm_num)
    rw [h3]
    simp [hE]
  · exact rsmb8_fresh_eq s4 _ rfl rfl rfl rfl

/-- Claim C9 witness: the character U+4E2D, drained with unrelated input
`[0x41]` supplied during the replay calls. -/
theorem mbrtoc8_queue_drain_witness :
    rs_mbrtoc8 true [0xE4, 0xB8, 0xAD] MBState.initial =
      (Int.ofNat 3, some ((utf8Encode 0x4E2D).getD 0 0),
        { MBState.initial with u8_buffer := utf8Encode 0x4E2D ++ [0], u8_position := 2 }) ∧
    rs_mbrtoc8 true [0x41]
        { MBState.initial with u8_buffer := utf8Encode 0x4E2D ++ [0], u8_position := 2 } =
      (-3, some ((utf8Encode 0x4E2D).getD 1 0),
        { MBState.initial with u8_buffer := utf8Encode 0x4E2D ++ [0], u8_position := 1 }) :=
  ⟨(mbrtoc8_queue_drain 0xE4 0xB8 0xAD 0x4E2D (by decide) (by decide) (by decide)
      (by decide) (by decide) (by decide) (by decide) (by decide) (by decide)).1,
   (mbrtoc8_queue_drain 0xE4 0xB8 0xAD 0x4E2D (by decide) (by decide) (by decide)
      (by decide) (by decide) (by decide) (by decide) (by decide) (by decide)).2.1 [0x41]⟩

/-! ### Claim C10 (confirmed): null output pointer returns 0 -/

/-- Claim C10: for a complete valid non-NUL character decoded from the
initial state, `rs_mbrtoc8` and `rs_mbrtoc16` called with a null output
pointer return 0 (the terminator code) instead of the consumed-byte count
returned by the non-null call, while producing exactly the same final
state (queued pending bytes / pending low surrogate included). -/
theorem null_out_returns_zero (s : List Nat) (l c32 : Nat)
    (hb : ∀ b ∈ s, b < 256)
    (h : mbtoc32 s MBState.initial = (Int.ofNat l, some c32, MBState.initial))
    (hnz : c32 ≠ 0) :
    ((rs_mbrtoc8 false s MBState.initial).1 = 0 ∧
     (rs_mbrtoc8 true s MBState.initial).1 = Int.ofNat l ∧
     (rs_mbrtoc8 false s MBState.initial).2.2 =
       (rs_mbrtoc8 true s MBState.initial).2.2) ∧
    ((rs_mbrtoc16 false s MBState.initial).1 = 0 ∧
     (rs_mbrtoc16 true s MBState.initial).1 = Int.ofNat l ∧
     (rs_mbrtoc16 false s MBState.initial).2.2 =
       (rs_mbrtoc16 true s MBState.initial).2.2) := by
  obtain ⟨hsur, hle⟩ :=
    mbtoc32_some_valid s MBState.initial (Int.ofNat l) c32 MBState.initial hb h
  have hv : ¬((0xd800 ≤ c32 ∧ c32 ≤ 0xdfff) ∨ 0x10ffff < c32) := by omega
  have h8f := rsmb8_success s MBState.initial l c32 false rfl h hv
  have h8t := rsmb8_success s MBState.initial l c32 true rfl h hv
  have hhead := utf8Encode_head_ne c32 hnz hle
  constructor
  · rw [h8f, h8t, if_neg hhead]
    simp
  · by_cases hbmp : c32 < 0x10000
    · have hf := rsmb16_success_bmp s MBState.initial l c32 false rfl h hbmp hsur
      have ht := rsmb16_success_bmp s MBState.initial l c32 true rfl h hbmp hsur
      rw [hf, ht]
      simp [hnz]
    · obtain ⟨hi, hhiv⟩ : ∃ hi, hi = 0xd800 + (c32 - 0x10000) / 0x400 := ⟨_, rfl⟩
      obtain ⟨lo, hlov⟩ : ∃ lo, lo = 0xdc00 + (c32 - 0x10000) % 0x400 := ⟨_, rfl⟩
      have hf := rsmb16_success_supp s MBState.initial l c32 hi lo false rfl h
        (by omega) hle hhiv hlov
      have ht := rsmb16_success_supp s MBState.initial l c32 hi lo true rfl h
        (by omega) hle hhiv hlov
      rw [hf, ht]
      simp

/-- Claim C10 witness: the 3-byte character U+4E2D. -/
theorem null_out_returns_zero_witness :
    (rs_mbrtoc8 false [0xE4, 0xB8, 0xAD] MBState.initial).1 = 0 ∧
    (rs_mbrtoc8 false [0xE4, 0xB8, 0xAD] MBState.initial).2.2 =
      (rs_mbrtoc8 true [0xE4, 0xB8, 0xAD] MBState.initial).2.2 ∧
    (rs_mbrtoc16 false [0xE4, 0xB8, 0xAD] MBState.initial).1 = 0 :=
  ⟨(null_out_returns_zero [0xE4, 0xB8, 0xAD] 3 0x4E2D (by decide) (by decide)
      (by decide)).1.1,
   (null_out_returns_zero [0xE4, 0xB8, 0xAD] 3 0x4E2D (by decide) (by decide)
      (by decide)).1.2.2,
   (null_out_returns_zero [0xE4, 0xB8, 0xAD] 3 0x4E2D (by decide) (by decide)
      (by decide)).2.1⟩

/-! ### Chunk-invariance machinery for the continuation loop -/

/-- Running the loop on a concatenation: completion or failure inside the
first part short-circuits; otherwise the saved progress resumes seamlessly
into the second part, with consumed counts adding up. -/
theorem loop_append (s1 s2 : List Nat) : ∀ bl p lb,
    mbtoc32Loop (s1 ++ s2) bl p lb =
      match mbtoc32Loop s1 bl p lb with
      | .complete sc c => .complete sc c
      | .illegal => .illegal
      | .incomplete bl2 p2 lb2 =>
        match mbtoc32Loop s2 bl2 p2 lb2 with
        | .complete sc c => .complete sc (s1.length + c)
        | .illegal => .illegal
        | .incomplete bl3 p3 lb3 => .incomplete bl3 p3 lb3 := by
  induction s1 with
  | nil =>
    intro bl p lb
    simp only [List.nil_append, mbtoc32Loop, List.length_nil]
    rcases mbtoc32Loop s2 bl p lb with ⟨sc, c⟩ | _ | ⟨a1, a2, a3⟩ <;> simp
  | cons b t ih =>
    intro bl p lb
    simp only [List.cons_append, mbtoc32Loop]
    split
    · rfl
    · split
      · split
        · rfl
        · rfl
      · simp only [List.append_eq]
        rw [ih]
        rcases mbtoc32Loop t (bl - 1) (((p <<< 6) % 4294967296) ||| (b &&& 0x3f)) lb with
          ⟨sc, c⟩ | _ | ⟨a1, a2, a3⟩
        · rfl
        · rfl
        · rcases hB : mbtoc32Loop s2 a1 a2 a3 with ⟨sc, c⟩ | _ | ⟨d1, d2, d3⟩ <;>
            simp [hB] <;> omega

/-- A completed loop consumed between 1 and `s.length` bytes. -/
theorem loop_complete_bounds (s : List Nat) : ∀ bl p lb sc k,
    mbtoc32Loop s bl p lb = .complete sc k → 1 ≤ k ∧ k ≤ s.length := by
  induction s with
  | nil =>
    intro bl p lb sc k h
    simp [mbtoc32Loop] at h
  | cons b t ih =>
    intro bl p lb sc k h
    simp only [mbtoc32Loop] at h
    split at h
    · simp at h
    · split at h
      · split at h
        · simp at h
        · simp only [LoopRes.complete.injEq] at h
          obtain ⟨-, hk⟩ := h
          simp only [List.length_cons]
          omega
      · split at h
        · rename_i sc2 c2 hm
          simp only [LoopRes.complete.injEq] at h
          obtain ⟨-, hk⟩ := h
          have := ih _ _ _ _ _ hm
          simp only [List.length_cons]
          omega
        · simp at h
        · simp at h

/-- The progress saved by an exhausted loop still expects at least one
byte. -/
theorem loop_incomplete_pos (s : List Nat) : ∀ bl p lb bl2 p2 lb2, 1 ≤ bl →
    mbtoc32Loop s bl p lb = .incomplete bl2 p2 lb2 → 1 ≤ bl2 := by
  induction s with
  | nil =>
    intro bl p lb bl2 p2 lb2 hbl h
    simp only [mbtoc32Loop, LoopRes.incomplete.injEq] at h
    omega
  | cons b t ih =>
    intro bl p lb bl2 p2 lb2 hbl h
    simp only [mbtoc32Loop] at h
    split at h
    · simp at h
    · split at h
      · split at h
        · simp at h
        · simp at h
      · split at h
        · simp at h
        · simp at h
        · rename_i a1 a2 a3 hm
          simp only [LoopRes.incomplete.injEq] at h
          obtain ⟨h1, h2, h3⟩ := h
          subst h1
          rename_i hbl1
          exact ih _ _ _ _ _ _ (by omega) hm

/-- A completed loop only looked at the bytes it consumed. -/
theorem loop_take (s : List Nat) : ∀ bl p lb sc k,
    mbtoc32Loop s bl p lb = .complete sc k →
    mbtoc32Loop (s.take k) bl p lb = .complete sc k := by
  induction s with
  | nil =>
    intro bl p lb sc k h
    simp [mbtoc32Loop] at h
  | cons b t ih =>
    intro bl p lb sc k h
    simp only [mbtoc32Loop] at h
    split at h
    · simp at h
    · split at h
      · split at h
        · simp at h
        · simp only [LoopRes.complete.injEq] at h
          obtain ⟨h1, h2⟩ := h
          subst h2
          simp only [List.take_succ_cons, List.take_zero]
          simp only [mbtoc32Loop]
          rename_i hc hbl hval
          rw [if_neg hc, if_pos hbl, if_neg hval, h1]
      · rename_i hc hbl
        split at h
        · rename_i sc2 c2 hm
          simp only [LoopRes.complete.injEq] at h
          obtain ⟨h1, h2⟩ := h
          subst h1
          subst h2
          simp only [List.take_succ_cons]
          simp only [mbtoc32Loop]
          rw [if_neg hc, if_neg hbl, ih _ _ _ _ _ hm]
        · simp at h
        · simp at h

/-- Inverting a successful `finishLoop`: the loop completed, the call
consumed at least `base` units, and the state was reset. -/
theorem finishLoop_complete_inv (ps : MBState) (base : Nat) (r : LoopRes)
    (k w : Nat) (st : MBState)
    (h : finishLoop ps base r = (Int.ofNat k, some w, st)) :
    r = .complete w (k - base) ∧ base ≤ k ∧ st = MBState.initial := by
  cases r with
  | complete sc c =>
    simp only [finishLoop, Prod.mk.injEq] at h
    obtain ⟨hk, hw, hst⟩ := h
    have hbc : base + c = k := Int.ofNat.inj hk
    simp only [Option.some.injEq] at hw
    subst hw
    refine ⟨?_, by omega, hst.symm⟩
    have : c = k - base := by omega
    rw [this]
  | illegal => simp [finishLoop] at h
  | incomplete a e c => simp [finishLoop] at h

/-- A successful `mbtoc32` call only looked at the bytes it consumed, and
consumed between 1 and `s.length` of them. -/
theorem mbtoc32_take (s : List Nat) (ps : MBState) (k w : Nat) (st : MBState)
    (h : mbtoc32 s ps = (Int.ofNat k, some w, st)) :
    mbtoc32 (s.take k) ps = (Int.ofNat k, some w, st) ∧ 1 ≤ k ∧ k ≤ s.length := by
  rcases s with _ | ⟨b, rest⟩
  · simp [mbtoc32] at h
  · simp only [mbtoc32] at h
    split at h
    · rename_i h0
      split at h
      · rename_i hA
        simp only [Prod.mk.injEq] at h
        obtain ⟨hk, hw, hst⟩ := h
        have hk1 : k = 1 := by
          rw [Int.ofNat_eq_coe] at hk
          omega
        subst hk1
        refine ⟨?_, le_refl 1, by simp⟩
        simp only [List.take_succ_cons, List.take_zero]
        rw [mbtoc32_ascii b _ ps h0 hA, hw, hst]
        rfl
      · rename_i hA
        split at h
        · rename_i hB
          obtain ⟨hr, hbase, hst⟩ := finishLoop_complete_inv ps 1 _ k w st h
          obtain ⟨hc1, hc2⟩ := loop_complete_bounds _ _ _ _ _ _ hr
          obtain ⟨k2, rfl⟩ : ∃ k2, k = k2 + 1 := ⟨k - 1, by omega⟩
          have hr2 : mbtoc32Loop rest 1 (b &&& 0x1f) 0x80 = .complete w k2 := by
            simpa using hr
          refine ⟨?_, by omega, ?_⟩
          · simp only [List.take_succ_cons]
            rw [mbtoc32_lead2 b _ ps h0 hA hB, loop_take rest _ _ _ _ _ hr2, hst]
            simp [finishLoop, Nat.add_comm]
          · simp only [List.length_cons]
            omega
        · rename_i hB
          split at h
          · rename_i hC
            obtain ⟨hr, hbase, hst⟩ := finishLoop_complete_inv ps 1 _ k w st h
            obtain ⟨hc1, hc2⟩ := loop_complete_bounds _ _ _ _ _ _ hr
            obtain ⟨k2, rfl⟩ : ∃ k2, k = k2 + 1 := ⟨k - 1, by omega⟩
            have hr2 : mbtoc32Loop rest 2 (b &&& 0xf) 0x800 = .complete w k2 := by
              simpa using hr
            refine ⟨?_, by omega, ?_⟩
            · simp only [List.take_succ_cons]
              rw [mbtoc32_lead3 b _ ps h0 hA hB hC, loop_take rest _ _ _ _ _ hr2, hst]
              simp [finishLoop, Nat.add_comm]
            · simp only [List.length_cons]
              omega
          · split at h
            · rename_i hC hD
              obtain ⟨hr, hbase, hst⟩ := finishLoop_complete_inv ps 1 _ k w st h
              obtain ⟨hc1, hc2⟩ := loop_complete_bounds _ _ _ _ _ _ hr
              obtain ⟨k2, rfl⟩ : ∃ k2, k = k2 + 1 := ⟨k - 1, by omega⟩
              have hr2 : mbtoc32Loop rest 3 (b &&& 0x7) 0x10000 = .complete w k2 := by
                simpa using hr
              refine ⟨?_, by omega, ?_⟩
              · simp only [List.take_succ_cons]
                rw [mbtoc32_lead4 b _ ps h0 hA hB hC hD, loop_take rest _ _ _ _ _ hr2, hst]
                simp [finishLoop, Nat.add_comm]
              · simp only [List.length_cons]
                omega
            · simp [Prod.mk.injEq] at h
    · rename_i h0
      obtain ⟨hr, hbase, hst⟩ := finishLoop_complete_inv ps 0 _ k w st h
      obtain ⟨hc1, hc2⟩ := loop_complete_bounds _ _ _ _ _ _ hr
      obtain ⟨k2, rfl⟩ : ∃ k2, k = k2 + 1 := ⟨k - 1, by omega⟩
      have hr2 : mbtoc32Loop (b :: rest) ps.bytesleft ps.part ps.lowerbound =
          .complete w (k2 + 1) := by simpa using hr
      have htake : (b :: rest).take (k2 + 1) = b :: rest.take k2 := by
        simp [List.take_succ_cons]
      refine ⟨?_, by omega, ?_⟩
      · rw [htake]
        rw [mbtoc32_resume b _ ps h0]
        have := loop_take _ _ _ _ _ _ hr2
        rw [htake] at this
        rw [this, hst]
        simp [finishLoop]
      · simp only [List.length_cons] at hc2 ⊢
        omega

/-- Completion inside the first part short-circuits the rest. -/
theorem loop_append_complete (s1 s2 : List Nat) (bl p lb sc c : Nat)
    (h : mbtoc32Loop s1 bl p lb = .complete sc c) :
    mbtoc32Loop (s1 ++ s2) bl p lb = .complete sc c := by
  rw [loop_append, h]

/-- Failure inside the first part short-circuits the rest. -/
theorem loop_append_illegal (s1 s2 : List Nat) (bl p lb : Nat)
    (h : mbtoc32Loop s1 bl p lb = .illegal) :
    mbtoc32Loop (s1 ++ s2) bl p lb = .illegal := by
  rw [loop_append, h]

/-- Progress saved at the end of the first part resumes into the second. -/
theorem loop_append_incomplete (s1 s2 : List Nat) (bl p lb bl2 p2 lb2 : Nat)
    (h : mbtoc32Loop s1 bl p lb = .incomplete bl2 p2 lb2) :
    mbtoc32Loop (s1 ++ s2) bl p lb =
      match mbtoc32Loop s2 bl2 p2 lb2 with
      | .complete sc c => .complete sc (s1.length + c)
      | .illegal => .illegal
      | .incomplete bl3 p3 lb3 => .incomplete bl3 p3 lb3 := by
  rw [loop_append, h]

/-- Splitting a loop run that completes exactly at the end of `t1 ++ t2`
with `t2` nonempty: the run must be incomplete after `t1` and complete
after consuming all of `t2`. -/
theorem loop_split (t1 t2 : List Nat) (bl p lb sc n : Nat)
    (hbl : 1 ≤ bl) (ht2 : t2 ≠ [])
    (h : mbtoc32Loop (t1 ++ t2) bl p lb = .complete sc n)
    (hn : n = t1.length + t2.length) :
    ∃ bl2 p2 lb2, mbtoc32Loop t1 bl p lb = .incomplete bl2 p2 lb2 ∧ 1 ≤ bl2 ∧
      mbtoc32Loop t2 bl2 p2 lb2 = .complete sc t2.length := by
  have ht2len : 1 ≤ t2.length := by
    rcases t2 with _ | _
    · exact absurd rfl ht2
    · simp
  rcases hA : mbtoc32Loop t1 bl p lb with ⟨sc1, c1⟩ | _ | ⟨bl2, p2, lb2⟩
  · rw [loop_append_complete t1 t2 _ _ _ _ _ hA] at h
    obtain ⟨hb1, hb2⟩ := loop_complete_bounds _ _ _ _ _ _ hA
    simp only [LoopRes.complete.injEq] at h
    exfalso
    omega
  · rw [loop_append_illegal t1 t2 _ _ _ hA] at h
    simp at h
  · rw [loop_append_incomplete t1 t2 _ _ _ _ _ _ hA] at h
    rcases hB : mbtoc32Loop t2 bl2 p2 lb2 with ⟨sc2, c2⟩ | _ | ⟨d1, d2, d3⟩ <;>
      rw [hB] at h <;> simp at h
    obtain ⟨hsc, hcn⟩ := h
    obtain ⟨hb1, hb2⟩ := loop_complete_bounds _ _ _ _ _ _ hB
    have hc2 : c2 = t2.length := by omega
    subst hsc
    subst hc2
    exact ⟨bl2, p2, lb2, rfl, loop_incomplete_pos t1 _ _ _ _ _ _ hbl hA, hB⟩

/-- Splitting a successful `mbtoc32` call whose input is consumed in full:
the first slice leaves an incomplete state, from which the second slice
completes with the same scalar. -/
theorem mbtoc32_split (s1 s2 : List Nat) (ps st : MBState) (k w : Nat)
    (hs2 : s2 ≠ [])
    (h : mbtoc32 (s1 ++ s2) ps = (Int.ofNat k, some w, st))
    (hk : k = s1.length + s2.length) :
    ∃ ps1, mbtoc32 s1 ps = (-2, none, ps1) ∧
      mbtoc32 s2 ps1 = (Int.ofNat s2.length, some w, st) := by
  rcases s2 with _ | ⟨y, r2⟩
  · exact absurd rfl hs2
  rcases s1 with _ | ⟨b, r1⟩
  · refine ⟨ps, by simp [mbtoc32], ?_⟩
    simp only [List.nil_append] at h
    simp only [List.length_nil, List.length_cons, Nat.zero_add] at hk
    have hlen : (y :: r2).length = k := by
      simp only [List.length_cons]
      omega
    rw [hlen]
    exact h
  · simp only [List.cons_append] at h
    simp only [mbtoc32] at h
    split at h
    · rename_i h0
      split at h
      · simp only [Prod.mk.injEq] at h
        obtain ⟨hk1, -, -⟩ := h
        rw [Int.ofNat_eq_coe] at hk1
        exfalso
        simp only [List.length_cons] at hk
        omega
      · rename_i hA
        split at h
        · rename_i hB
          obtain ⟨hr, hbase, hst⟩ := finishLoop_complete_inv ps 1 _ k w st h
          obtain ⟨bl2, p2, lb2, hI, hpos2, hC⟩ := loop_split r1 (y :: r2) 1
            (b &&& 0x1f) 0x80 w (k - 1) (le_refl 1) (by simp) hr
            (by simp only [List.length_cons] at hk ⊢; omega)
          refine ⟨{ ps with bytesleft := bl2, part := p2, lowerbound := lb2 }, ?_, ?_⟩
          · rw [mbtoc32_lead2 b r1 ps h0 hA hB, hI]
            rfl
          · rw [mbtoc32_resume y r2 _ (by simp only []; omega)]
            show finishLoop _ 0 (mbtoc32Loop (y :: r2) bl2 p2 lb2) = _
            rw [hC, hst]
            simp [finishLoop]
        · rename_i hB
          split at h
          · rename_i hC0
            obtain ⟨hr, hbase, hst⟩ := finishLoop_complete_inv ps 1 _ k w st h
            obtain ⟨bl2, p2, lb2, hI, hpos2, hC⟩ := loop_split r1 (y :: r2) 2
              (b &&& 0xf) 0x800 w (k - 1) (by omega) (by simp) hr
              (by simp only [List.length_cons] at hk ⊢; omega)
            refine ⟨{ ps with bytesleft := bl2, part := p2, lowerbound := lb2 }, ?_, ?_⟩
            · rw [mbtoc32_lead3 b r1 ps h0 hA hB hC0, hI]
              rfl
            · rw [mbtoc32_resume y r2 _ (by simp only []; omega)]
              show finishLoop _ 0 (mbtoc32Loop (y :: r2) bl2 p2 lb2) = _
              rw [hC, hst]
              simp [finishLoop]
          · split at h
            · rename_i hC0 hD
              obtain ⟨hr, hbase, hst⟩ := finishLoop_complete_inv ps 1 _ k w st h
              obtain ⟨bl2, p2, lb2, hI, hpos2, hC⟩ := loop_split r1 (y :: r2) 3
                (b &&& 0x7) 0x10000 w (k - 1) (by omega) (by simp) hr
                (by simp only [List.length_cons] at hk ⊢; omega)
              refine ⟨{ ps with bytesleft := bl2, part := p2, lowerbound := lb2 }, ?_, ?_⟩
              · rw [mbtoc32_lead4 b r1 ps h0 hA hB hC0 hD, hI]
                rfl
              · rw [mbtoc32_resume y r2 _ (by simp only []; omega)]
                show finishLoop _ 0 (mbtoc32Loop (y :: r2) bl2 p2 lb2) = _
                rw [hC, hst]
                simp [finishLoop]
            · simp [Prod.mk.injEq] at h
    · rename_i h0
      obtain ⟨hr, hbase, hst⟩ := finishLoop_complete_inv ps 0 _ k w st h
      obtain ⟨bl2, p2, lb2, hI, hpos2, hC⟩ := loop_split (b :: r1) (y :: r2)
        ps.bytesleft ps.part ps.lowerbound w (k - 0) (by omega) (by simp)
        (by simpa using hr)
        (by simp only [List.length_cons] at hk ⊢; omega)
      refine ⟨{ ps with bytesleft := bl2, part := p2, lowerbound := lb2 }, ?_, ?_⟩
      · rw [mbtoc32_resume b r1 ps h0, hI]
        rfl
      · rw [mbtoc32_resume y r2 _ (by simp only []; omega)]
        show finishLoop _ 0 (mbtoc32Loop (y :: r2) bl2 p2 lb2) = _
        rw [hC, hst]
        simp [finishLoop]

/-- Feeding a chunked decomposition of a fully-consumed successful decode:
all chunks but the last report `-2`, the last completes with the scalar and
its own length as consumed count, and the final state is the one the
unchunked call produced. -/
theorem feedChunks_complete (cs : List (List Nat)) : ∀ (c : List Nat)
    (ps st : MBState) (k S : Nat),
    (∀ d ∈ cs, d ≠ []) → c ≠ [] →
    mbtoc32 ((cs ++ [c]).flatten) ps = (Int.ofNat k, some S, st) →
    k = ((cs ++ [c]).flatten).length →
    feedChunks ps (cs ++ [c]) =
      (st, List.replicate cs.length ((-2 : Int), (none : Option Nat)) ++
        [(Int.ofNat c.length, some S)]) := by
  induction cs with
  | nil =>
    intro c ps st k S _ hc h hk
    simp only [List.nil_append] at h hk ⊢
    have hfl : (([c] : List (List Nat)).flatten) = c := by simp
    rw [hfl] at h hk
    subst hk
    simp [feedChunks, h]
  | cons d cs ih =>
    intro c ps st k S hne hc h hk
    have hd : d ≠ [] := hne d (by simp)
    have hflat : ((d :: (cs ++ [c])).flatten) = d ++ (cs ++ [c]).flatten := by
      simp
    have hrest : (cs ++ [c]).flatten ≠ [] := by
      simp only [List.flatten_append, List.flatten_cons, List.flatten_nil,
        List.append_nil]
      intro hemp
      exact hc (List.append_eq_nil.mp hemp).2
    rw [show (d :: cs) ++ [c] = d :: (cs ++ [c]) from rfl] at h hk ⊢
    rw [hflat] at h hk
    obtain ⟨ps1, h1, h2⟩ := mbtoc32_split d ((cs ++ [c]).flatten) ps st k S hrest h
      (by rw [hk]; simp [List.length_append])
    have hmain := ih c ps1 st ((cs ++ [c]).flatten).length S
      (fun e he => hne e (List.mem_cons_of_mem d he)) hc h2 rfl
    simp only [feedChunks, h1, hmain]
    simp [List.replicate_succ]

/-! ### Claim C1 (confirmed): chunk invariance of UTF-8 decoding -/

/-- Claim C1: if `mbtoc32` decodes a byte sequence in one call from the
initial state to scalar `S` consuming `k` bytes, then feeding those `k`
bytes split at any position(s) — any decomposition into nonempty chunks —
across multiple calls on the same state yields the same final scalar `S`,
with every intermediate call reporting incomplete input (`-2`, consuming
its whole chunk), the final call consuming exactly its chunk, the chunk
lengths summing to the same total consumed count `k`, and the same final
(initial) state. -/
theorem mbtoc32_chunk_invariance (bs : List Nat) (k S : Nat)
    (cs : List (List Nat)) (c : List Nat)
    (h : mbtoc32 bs MBState.initial = (Int.ofNat k, some S, MBState.initial))
    (hne : ∀ d ∈ cs, d ≠ []) (hc : c ≠ [])
    (hjoin : (cs ++ [c]).flatten = bs.take k) :
    feedChunks MBState.initial (cs ++ [c]) =
      (MBState.initial,
        List.replicate cs.length ((-2 : Int), (none : Option Nat)) ++
          [(Int.ofNat c.length, some S)]) ∧
    ((cs ++ [c]).map List.length).sum = k := by
  obtain ⟨htake, hk1, hk2⟩ := mbtoc32_take bs MBState.initial k S MBState.initial h
  have hlen : (bs.take k).length = k := by
    simp only [List.length_take]
    omega
  have hsum : ((cs ++ [c]).map List.length).sum = k := by
    rw [← List.length_flatten, hjoin, hlen]
  refine ⟨?_, hsum⟩
  exact feedChunks_complete cs c MBState.initial MBState.initial k S hne hc
    (by rw [hjoin]; exact htake) (by rw [hjoin, hlen])

/-- Claim C1 witness: the 3-byte character U+4E2D followed by a stray byte,
split as `[E4] / [B8 AD]`. -/
theorem chunk_invariance_witness :
    feedChunks MBState.initial ([[0xE4]] ++ [[0xB8, 0xAD]]) =
      (MBState.initial,
        List.replicate 1 ((-2 : Int), (none : Option Nat)) ++
          [(Int.ofNat 2, some 0x4E2D)]) ∧
    (([[0xE4]] ++ [[0xB8, 0xAD]]).map List.length).sum = 3 :=
  mbtoc32_chunk_invariance [0xE4, 0xB8, 0xAD, 0x41] 3 0x4E2D [[0xE4]]
    [0xB8, 0xAD] (by decide) (by decide) (by decide) (by decide)

/-! ### Claim C8 (corrected): the initial-state predicate -/

/-- Claim C8, counterexample: after `rs_mbrtoc8` decodes a 3-byte character
the state has two queued undelivered UTF-8 bytes (`u8_position = 2`), yet
`MBState::is_initial` still reports true, because the source checks only
`ch`, `bytesleft` and `u16_surrogate` — not the pending-bytes cursor.
Hence "is_initial iff bytesleft = 0 AND pendingBytes cursor empty AND no
surrogate pending" is false on the code. -/
theorem c8_counterexample :
    ((rs_mbrtoc8 true [0xE4, 0xB8, 0xAD] MBState.initial).2.2.is_initial = true) ∧
    ((rs_mbrtoc8 true [0xE4, 0xB8, 0xAD] MBState.initial).2.2.u8_position = 2) := by
  decide

/-- Claim C8, amended: for every non-null state, `rs_mbsinit` returns true
iff `ch = 0`, `bytesleft = 0`, and `u16_surrogate` holds no value in the
surrogate range `0xD800..0xDFFF`. The pending-bytes cursor `u8_position`
is not consulted. -/
theorem rs_mbsinit_iff (ps : MBState) :
    rs_mbsinit (some ps) = 1 ↔
      (ps.ch = 0 ∧ ps.bytesleft = 0 ∧
        (ps.u16_surrogate < 0xd800 ∨ 0xdfff < ps.u16_surrogate)) := by
  have hchar : ps.is_initial = true ↔
      (ps.ch = 0 ∧ ps.bytesleft = 0 ∧
        (ps.u16_surrogate < 0xd800 ∨ 0xdfff < ps.u16_surrogate)) := by
    simp only [MBState.is_initial, Bool.and_eq_true, Bool.or_eq_true, beq_iff_eq,
      decide_eq_true_eq]
    omega
  simp only [rs_mbsinit]
  split
  · rename_i hb
    exact ⟨fun _ => hchar.mp hb, fun _ => rfl⟩
  · rename_i hb
    exact ⟨fun h => absurd h (by decide), fun h => absurd (hchar.mpr h) hb⟩

/-- Claim C8 witness: the zero state satisfies the characterization. -/
theorem rs_mbsinit_iff_witness : rs_mbsinit (some MBState.initial) = 1 :=
  (rs_mbsinit_iff MBState.initial).mpr ⟨rfl, rfl, Or.inl (by decide)⟩

/-! ### Claim C7 (corrected): zero-length input -/

/-- Claim C7, counterexample: a zero-length buffer does not report the
"terminator reached" code 0 — `mbtoc32`'s `n < 1` early return yields `-2`
(incomplete input), which `rs_mbrtoc32` passes through. -/
theorem c7_counterexample :
    (rs_mbrtoc32 [] MBState.initial).1 = -2 ∧ ((-2 : Int) ≠ 0) := by
  decide

/-- Claim C7, amended: for every state with nothing queued for replay,
calling any byte-consuming decode operation with a non-null buffer of
length 0 returns `-2` (incomplete input), consumes nothing, writes no
output unit, and leaves the state unchanged. -/
theorem zero_length_incomplete (outP8 outP16 : Bool) (ps : MBState)
    (h8 : ps.u8_position = 0) (h16 : ps.u16_surrogate = 0) :
    rs_mbrtoc32 [] ps = (-2, none, ps) ∧
    rs_mbrtoc8 outP8 [] ps = (-2, none, ps) ∧
    rs_mbrtoc16 outP16 [] ps = (-2, none, ps) := by
  refine ⟨?_, ?_, ?_⟩
  · simp [rs_mbrtoc32, mbtoc32]
  · simp [rs_mbrtoc8, mbtoc32, h8]
  · simp [rs_mbrtoc16, mbtoc32, h16]

/-- Claim C7 witness: the amended behaviour at the initial state. -/
theorem zero_length_incomplete_witness :
    rs_mbrtoc32 [] MBState.initial = (-2, none, MBState.initial) ∧
    rs_mbrtoc8 true [] MBState.initial = (-2, none, MBState.initial) ∧
    rs_mbrtoc16 true [] MBState.initial = (-2, none, MBState.initial) :=
  zero_length_incomplete true true MBState.initial rfl rfl

/-! ### Claim C4 (confirmed): the scalar-to-UTF-8 encoder contract -/

/-- Claim C4: for every input, `rs_c32rtomb` with non-null output writes the
canonical UTF-8 form and returns the byte count — 1 byte for `c32 ≤ 0x7F`,
2 for `≤ 0x7FF`, 3 for `≤ 0xFFFF` outside the surrogate range, 4 for
`≤ 0x10FFFF` — and returns `-1` writing nothing for a surrogate or a value
above `0x10FFFF`. -/
theorem c32rtomb_contract (c32 : Nat) (ps : MBState) :
    (c32 ≤ 0x7f →
      rs_c32rtomb c32 ps = (1, utf8Encode c32, MBState.initial) ∧
        (utf8Encode c32).length = 1) ∧
    (0x80 ≤ c32 → c32 ≤ 0x7ff →
      rs_c32rtomb c32 ps = (2, utf8Encode c32, MBState.initial) ∧
        (utf8Encode c32).length = 2) ∧
    (0x800 ≤ c32 → c32 ≤ 0xffff → ¬(0xd800 ≤ c32 ∧ c32 ≤ 0xdfff) →
      rs_c32rtomb c32 ps = (3, utf8Encode c32, MBState.initial) ∧
        (utf8Encode c32).length = 3) ∧
    (0x10000 ≤ c32 → c32 ≤ 0x10ffff →
      rs_c32rtomb c32 ps = (4, utf8Encode c32, MBState.initial) ∧
        (utf8Encode c32).length = 4) ∧
    ((0xd800 ≤ c32 ∧ c32 ≤ 0xdfff) ∨ 0x10ffff < c32 →
      rs_c32rtomb c32 ps = (-1, [], MBState.initial)) := by
  refine ⟨fun h1 => ?_, fun h0 h1 => ?_, fun h0 h1 hs => ?_, fun h0 h1 => ?_,
    fun h => ?_⟩
  · have hl : (utf8Encode c32).length = 1 := (utf8Encode_length c32).1 h1
    have := c32tomb_valid c32 (by omega) (by omega)
    refine ⟨?_, hl⟩
    simp [rs_c32rtomb, this, hl]
  · have hl : (utf8Encode c32).length = 2 := (utf8Encode_length c32).2.1 h0 h1
    have := c32tomb_valid c32 (by omega) (by omega)
    refine ⟨?_, hl⟩
    simp [rs_c32rtomb, this, hl]
  · have hl : (utf8Encode c32).length = 3 := (utf8Encode_length c32).2.2.1 h0 h1
    have := c32tomb_valid c32 hs (by omega)
    refine ⟨?_, hl⟩
    simp [rs_c32rtomb, this, hl]
  · have hl : (utf8Encode c32).length = 4 := (utf8Encode_length c32).2.2.2 h0
    have := c32tomb_valid c32 (by omega) h1
    refine ⟨?_, hl⟩
    simp [rs_c32rtomb, this, hl]
  · have := c32tomb_invalid c32 h
    simp [rs_c32rtomb, this]

/-- Claim C4 witness: the contract evaluated on one scalar of each range and
one rejected input. -/
theorem c32rtomb_contract_witness :
    (rs_c32rtomb 0x41 MBState.initial = (1, utf8Encode 0x41, MBState.initial) ∧
      (utf8Encode 0x41).length = 1) ∧
    (rs_c32rtomb 0x20AC MBState.initial = (3, utf8Encode 0x20AC, MBState.initial) ∧
      (utf8Encode 0x20AC).length = 3) ∧
    rs_c32rtomb 0xD800 MBState.initial = (-1, [], MBState.initial) :=
  ⟨(c32rtomb_contract 0x41 MBState.initial).1 (by decide),
   (c32rtomb_contract 0x20AC MBState.initial).2.2.1 (by decide) (by decide) (by decide),
   (c32rtomb_contract 0xD800 MBState.initial).2.2.2.2 (Or.inl (by decide))⟩

/-! ### Claim C5 (corrected): UTF-16 surrogate handling in `rs_c16rtomb` -/

/-- Claim C5, counterexample: a high surrogate arriving with no pending
surrogate makes `rs_c16rtomb` return 0 (the C convention for "stored,
zero bytes produced"), not the incomplete-input code `-2` asserted by the
claim. -/
theorem c5_counterexample :
    (rs_c16rtomb 0xD800 MBState.initial).1 = 0 ∧
    ((rs_c16rtomb 0xD800 MBState.initial).1 ≠ -2) := by
  decide

/-- Claim C5, amended: a unit in `0xD800..0xDBFF` with no pending surrogate
is stored in the state and the call returns 0 with zero bytes produced
(not a fatal error); a following unit in `0xDC00..0xDFFF` combines into
the scalar `0x10000 + (high - 0xD800) * 0x400 + (low - 0xDC00)` whose four
UTF-8 bytes are emitted with the state reset; any other unit while a high
surrogate is pending, or a lone low surrogate, returns `-1`. -/
theorem c16_surrogate_pairing (ps : MBState) (h : ps.u16_surrogate = 0) :
    (∀ c16, 0xd800 ≤ c16 → c16 ≤ 0xdbff →
      rs_c16rtomb c16 ps = (0, [], { ps with u16_surrogate := c16 })) ∧
    (∀ hi lo, 0xd800 ≤ hi → hi ≤ 0xdbff → 0xdc00 ≤ lo → lo ≤ 0xdfff →
      rs_c16rtomb lo { ps with u16_surrogate := hi } =
        (4, utf8Encode (0x10000 + (hi - 0xd800) * 0x400 + (lo - 0xdc00)),
          MBState.initial)) ∧
    (∀ hi u, 0xd800 ≤ hi → hi ≤ 0xdbff → ¬(0xdc00 ≤ u ∧ u ≤ 0xdfff) →
      rs_c16rtomb u { ps with u16_surrogate := hi } =
        (-1, [], { ps with u16_surrogate := hi })) ∧
    (∀ lo, 0xdc00 ≤ lo → lo ≤ 0xdfff → rs_c16rtomb lo ps = (-1, [], ps)) := by
  refine ⟨fun c16 hlow hhigh => ?_, fun hi lo hh1 hh2 hl1 hl2 => ?_,
    fun hi u hh1 hh2 hu => ?_, fun lo hl1 hl2 => ?_⟩
  · simp [rs_c16rtomb, h, show ¬(c16 < 0xd800 ∨ 0xdfff < c16) by omega,
      show c16 ≤ 0xdbff from hhigh]
  · have hsc : 0x10000 ≤ 0x10000 + (hi - 0xd800) * 0x400 + (lo - 0xdc00) := by omega
    have hbd : 0x10000 + (hi - 0xd800) * 0x400 + (lo - 0xdc00) ≤ 0x10ffff := by omega
    have hv := c32tomb_valid (0x10000 + (hi - 0xd800) * 0x400 + (lo - 0xdc00))
      (by omega) hbd
    have hl : (utf8Encode (0x10000 + (hi - 0xd800) * 0x400 + (lo - 0xdc00))).length = 4 :=
      (utf8Encode_length _).2.2.2 hsc
    simp [rs_c16rtomb, decodeUtf16Pair, show hi ≠ 0 by omega,
      show ¬(hi < 0xd800 ∨ 0xdfff < hi) by omega, hh2, hl1, hl2, hv, hl]
  · simp [rs_c16rtomb, decodeUtf16Pair, show hi ≠ 0 by omega,
      show ¬(hi < 0xd800 ∨ 0xdfff < hi) by omega,
      show ¬(hi ≤ 0xdbff ∧ 0xdc00 ≤ u ∧ u ≤ 0xdfff) by omega]
  · simp [rs_c16rtomb, h, show ¬(lo < 0xd800 ∨ 0xdfff < lo) by omega,
      show ¬ lo ≤ 0xdbff by omega]

/-- Claim C5 witness: storing the high surrogate of U+1F600 and completing
the pair. -/
theorem c16_surrogate_pairing_witness :
    rs_c16rtomb 0xD83D MBState.initial =
      (0, [], { MBState.initial with u16_surrogate := 0xD83D }) ∧
    rs_c16rtomb 0xDE00 { MBState.initial with u16_surrogate := 0xD83D } =
      (4, utf8Encode (0x10000 + (0xD83D - 0xd800) * 0x400 + (0xDE00 - 0xdc00)),
        MBState.initial) :=
  ⟨(c16_surrogate_pairing MBState.initial rfl).1 0xD83D (by decide) (by decide),
   (c16_surrogate_pairing MBState.initial rfl).2.1 0xD83D 0xDE00
     (by decide) (by decide) (by decide) (by decide)⟩

/-! ### Claim C6 (corrected): state reset on completion and on failure -/

/-- Claim C6, counterexample: `rs_c16rtomb` on a pending high surrogate fed
a non-surrogate unit returns `-1` but leaves the pending surrogate in the
state, so `is_initial` is false after a fatal error — the claimed
"state reset on every fatal failure" does not hold. -/
theorem c6_counterexample :
    (rs_c16rtomb 0x41 ((rs_c16rtomb 0xD800 MBState.initial).2.2)).1 = -1 ∧
    ((rs_c16rtomb 0x41 ((rs_c16rtomb 0xD800 MBState.initial).2.2)).2.2.is_initial
      = false) := by
  decide

/-- Claim C6, amended: every call that completes a scalar through the
UTF-8 decoder resets the state (mbtoc32 runs `ps.reset()` before
returning a scalar), and `rs_c32rtomb` resets unconditionally; but a call
returning `-1` may leave the state mid-sequence, hence non-initial. -/
theorem c6_amended :
    (∀ s ps l w ps2, mbtoc32 s ps = (l, some w, ps2) → ps2.is_initial = true) ∧
    (∀ c32 ps, ((rs_c32rtomb c32 ps).2.2).is_initial = true) := by
  constructor
  · intro s ps l w ps2 h
    have hini : ps2 = MBState.initial := by
      rcases s with _ | ⟨b, rest⟩
      · simp [mbtoc32] at h
      · simp only [mbtoc32] at h
        split at h
        · split at h
          · simp only [Prod.mk.injEq] at h
            exact h.2.2.symm
          · split at h
            · exact finishLoop_some h
            · split at h
              · exact finishLoop_some h
              · split at h
                · exact finishLoop_some h
                · simp [Prod.mk.injEq] at h
        · exact finishLoop_some h
    rw [hini]
    decide
  · intro c32 ps
    simp [rs_c32rtomb]
    decide

/-- Claim C6 witness: a completed ASCII decode satisfies the reset
property. -/
theorem c6_amended_witness :
    ((mbtoc32 [0x41] MBState.initial).2.2).is_initial = true :=
  c6_amended.1 [0x41] MBState.initial 1 0x41 _ (by decide)

/-! ### Claim C2 (confirmed): encode/decode round trip -/

/-- Claim C2: for every scalar in `0..0x10FFFF` outside the surrogate range,
`c32tomb` produces exactly the canonical bytes with their count as return
value, and decoding those bytes from a fresh initial state with `mbtoc32`
(resp. `rs_mbrtoc32`) recovers the scalar, consuming all of them —
`rs_mbrtoc32` reporting result code 0 when the scalar is 0. -/
theorem roundtrip_scalar (S : Nat) (hr : S ≤ 0x10ffff)
    (hs : ¬(0xd800 ≤ S ∧ S ≤ 0xdfff)) :
    c32tomb S = (Int.ofNat (utf8Encode S).length, utf8Encode S) ∧
    mbtoc32 (utf8Encode S) MBState.initial =
      (Int.ofNat (utf8Encode S).length, some S, MBState.initial) ∧
    rs_mbrtoc32 (utf8Encode S) MBState.initial =
      ((if S = 0 then 0 else Int.ofNat (utf8Encode S).length), some S,
        MBState.initial) := by
  refine ⟨c32tomb_valid S hs hr, mbtoc32_utf8Encode S hr hs, ?_⟩
  have h := mbtoc32_utf8Encode S hr hs
  by_cases h0 : S = 0
  · subst h0
    simp [rs_mbrtoc32, h]
  · simp [rs_mbrtoc32, h, h0]

/-- Claim C2 witness: the round trip at U+1F600 (a 4-byte scalar). -/
theorem roundtrip_scalar_witness :
    c32tomb 0x1F600 = (Int.ofNat (utf8Encode 0x1F600).length, utf8Encode 0x1F600) ∧
    mbtoc32 (utf8Encode 0x1F600) MBState.initial =
      (Int.ofNat (utf8Encode 0x1F600).length, some 0x1F600, MBState.initial) :=
  ⟨(roundtrip_scalar 0x1F600 (by decide) (by decide)).1,
   (roundtrip_scalar 0x1F600 (by decide) (by decide)).2.1⟩

/-! ### Claim C3 (confirmed): completion validation in the UTF-8 decoder -/

/-- Claim C3: when a multi-byte sequence reaches its final continuation byte
(state expecting exactly one more byte), the call returns `-1` if the
assembled scalar is below the sequence's lower bound (overlong), falls in
the surrogate range, or exceeds 0x10FFFF; in particular `C0 80` and
`ED A0 80` are rejected while the lone byte `00` succeeds with code 0. -/
theorem c3_completion_validation :
    (∀ ps b rest p2, ps.bytesleft = 1 → b &&& 0xc0 = 0x80 →
      p2 = ((ps.part <<< 6) % 4294967296) ||| (b &&& 0x3f) →
      (p2 < ps.lowerbound ∨ (0xd800 ≤ p2 ∧ p2 ≤ 0xdfff) ∨ 0x10ffff < p2) →
      mbtoc32 (b :: rest) ps = (-1, none, ps)) ∧
    rs_mbrtoc32 [0xC0, 0x80] MBState.initial = (-1, none, MBState.initial) ∧
    rs_mbrtoc32 [0xED, 0xA0, 0x80] MBState.initial = (-1, none, MBState.initial) ∧
    rs_mbrtoc32 [0x00] MBState.initial = (0, some 0, MBState.initial) := by
  refine ⟨?_, by decide, by decide, by decide⟩
  intro ps b rest p2 hbl hcont hp2 hbad
  subst hp2
  simp only [mbtoc32, hbl]
  rw [if_neg (by omega)]
  simp only [mbtoc32Loop]
  rw [if_neg (fun hne => hne hcont)]
  simp only [show (1 : Nat) - 1 = 0 from rfl, if_pos rfl]
  rw [if_pos hbad]
  simp [finishLoop]

/-- Claim C3 witness: resumed final continuation byte of an overlong `C0 80`
sequence is rejected. -/
theorem c3_witness :
    mbtoc32 [0x80] { MBState.initial with bytesleft := 1, lowerbound := 0x80 } =
      (-1, none, { MBState.initial with bytesleft := 1, lowerbound := 0x80 }) :=
  c3_completion_validation.1 _ 0x80 [] _ rfl (by decide) rfl (by decide)

end Mbstowcs
